import Mathlib

/-!
Shallow embedding of the polling-classification-dedup engine of
`console_track_foreign_mil.py` (flight_tracking repository).

Python strings are modelled as Lean `String`; the Python string methods
used by the source (`lower`, `upper`, `strip`, `startswith`) are given
explicit executable models over `String.data`.  Machine time
(`time.time()`) is modelled as `Int`.  Fallible HTTP fetches are
modelled by passing the decoded response (or `none` for a failed /
key-less response) as an explicit argument.
-/

namespace FlightTrack

/-- Model of Python `str.lower()` (ASCII case folding as used on hex codes). -/
def pyLower (s : String) : String := ⟨s.data.map Char.toLower⟩

/-- Model of Python `str.upper()`. -/
def pyUpper (s : String) : String := ⟨s.data.map Char.toUpper⟩

/-- Model of Python `str.strip()`: drop whitespace at both ends. -/
def pyStrip (s : String) : String :=
  ⟨((s.data.dropWhile Char.isWhitespace).reverse.dropWhile Char.isWhitespace).reverse⟩

/-- Model of Python `str.startswith` / an anchored literal regex head. -/
def pyStartsWith (s p : String) : Bool := p.data.isPrefixOf s.data

/-- The anchored regexes in `MILITARY_CALLSIGN_PATTERNS` all have one of
three shapes: a literal, a literal followed by `\d`, or a literal
followed by `\w`. -/
inductive CallsignPat where
  | lit (p : String)
  | litDigit (p : String)
  | litWord (p : String)

/-- `re.match` of one of the three pattern shapes against a string
(anchored at the start, as `re.match` is). -/
def matchPat (pt : CallsignPat) (s : String) : Bool :=
  match pt with
  | .lit p => pyStartsWith s p
  | .litDigit p =>
      pyStartsWith s p &&
        (match s.data.drop p.data.length with
         | c :: _ => c.isDigit
         | [] => false)
  | .litWord p =>
      pyStartsWith s p &&
        (match s.data.drop p.data.length with
         | c :: _ => c.isAlphanum || c == '_'
         | [] => false)

/-- `MILITARY_CALLSIGN_PATTERNS`, in source order (including the
duplicated `^THUG\d`). -/
def MILITARY_CALLSIGN_PATTERNS : List CallsignPat :=
  [.litDigit "RCH", .litDigit "DOOM", .litDigit "RAGE", .litDigit "CYLON",
   .litDigit "KING", .litWord "NAVY", .litDigit "AF", .litDigit "USAF",
   .lit "MARINE", .litDigit "ZEUS", .litDigit "THUG", .litDigit "NINJA",
   .litDigit "TREK", .lit "SNTRY", .lit "ETHIC", .litDigit "SLAM",
   .lit "DERBY", .lit "CAESAR", .lit "UPSET", .litDigit "WOLF",
   .litDigit "BISON", .litDigit "CHAMP", .litDigit "THUG", .lit "WEASEL",
   .litDigit "HKR", .litDigit "EAGLE", .lit "FALCON", .lit "VIPER",
   .lit "COBRA"]

/-- `MILITARY_ICAO_PREFIXES` from the source. -/
def MILITARY_ICAO_PREFIXES : List String := ["ADF", "ADC", "AE", "3E"]

/-- The inline list of military/emergency squawk codes in
`is_military_aircraft`. -/
def MILITARY_SQUAWKS : List String :=
  ["7777", "7400", "7401", "7402", "7500", "7600", "7700"]

/-- One PiAware aircraft record (`aircraft.get(...)` fields used by the
classifier; missing fields are modelled by the Python defaults the
source supplies to `.get`). -/
structure Aircraft where
  flight : String := ""
  hex : String := ""
  mil : Bool := false
  squawk : Option String := none
deriving DecidableEq

/-- Rule (a) of `is_military_aircraft`: the stripped callsign is
non-empty and matches one of the anchored callsign patterns. -/
def milCallsignRule (aircraft : Aircraft) : Bool :=
  let callsign := pyStrip aircraft.flight
  callsign ≠ "" && MILITARY_CALLSIGN_PATTERNS.any (fun pt => matchPat pt callsign)

/-- Rule (b) of `is_military_aircraft`: the upper-cased hex identifier
starts with one of the military ICAO block prefixes. -/
def milHexRule (aircraft : Aircraft) : Bool :=
  MILITARY_ICAO_PREFIXES.any (fun p => pyStartsWith (pyUpper aircraft.hex) p)

/-- Rule (d) of `is_military_aircraft`: the squawk code is in the fixed
military/emergency set (`None` is never in the list). -/
def milSquawkRule (aircraft : Aircraft) : Bool :=
  match aircraft.squawk with
  | some sq => MILITARY_SQUAWKS.contains sq
  | none => false

/-- `is_military_aircraft` from the source: rules (a) callsign, (b) hex
prefix, (c) the feed's own `mil` flag, (d) squawk code. -/
def is_military_aircraft (aircraft : Aircraft) : Bool :=
  milCallsignRule aircraft || milHexRule aircraft || aircraft.mil ||
    milSquawkRule aircraft

/-- One OpenSky state vector: a list whose index 0 is the ICAO hex and
index 2 the origin country; entries are nullable strings (other indices
are irrelevant to the source and modelled as strings too). -/
abbrev OpenSkyEntry := List (Option String)

/-- Python `dict` lookup for string-keyed association lists. -/
def dictLookup {α : Type} (k : String) : List (String × α) → Option α
  | [] => none
  | (k', v) :: rest => if k' = k then some v else dictLookup k rest

/-- Python `dict` assignment `d[k] = v`: replace the binding if the key
is present, else append-like insert. -/
def dictInsert {α : Type} (k : String) (v : α) : List (String × α) → List (String × α)
  | [] => [(k, v)]
  | (k', v') :: rest =>
      if k' = k then (k, v) :: rest else (k', v') :: dictInsert k v rest

/-- The indexed OpenSky snapshot: a dict from lowercased ICAO hex to the
raw state vector. -/
abbrev Snapshot := List (String × OpenSkyEntry)

/-- `check_aircraft_status` from the source.  The `opensky_data`
argument is `none` for Python `None` and `some d` for a dict `d`
(an empty dict is falsy, as in Python). -/
def check_aircraft_status (aircraft : Aircraft) (opensky_data : Option Snapshot) :
    Option (String × String × String) :=
  let icao_hex := pyLower aircraft.hex
  if icao_hex = "" then none
  else if is_military_aircraft aircraft then
    some (icao_hex, "Military Aircraft", "MILITARY")
  else
    match opensky_data with
    | some d =>
        if d.isEmpty then none
        else
          match dictLookup icao_hex d with
          | some entry =>
              let country :=
                match entry.get? 2 with
                | some (some c) => if c = "" then "Unknown" else pyStrip c
                | _ => "Unknown"
              if country ≠ "United States" ∧ country ≠ "Unknown" then
                some (icao_hex, "Foreign (" ++ country ++ ")", "FOREIGN")
              else none
          | none => none
    | none => none

/-- `OPENSKY_CACHE_DURATION` from the source configuration. -/
def OPENSKY_CACHE_DURATION : Int := 300

/-- State of `APIRateLimiter`.  Times are in seconds (`time.time()`),
modelled as `Int`. -/
structure APIRateLimiter where
  daily_limit : Nat
  min_interval : Int
  call_count : Nat
  last_call_time : Int
  reset_time : Int
deriving DecidableEq

/-- `APIRateLimiter.can_make_call` from the source.  The method mutates
`self` (lazy daily reset), so it is modelled as returning the decision
together with the updated state. -/
def can_make_call (now : Int) (st : APIRateLimiter) : Bool × APIRateLimiter :=
  let st1 :=
    if now > st.reset_time then
      { st with call_count := 0, reset_time := now + 24*60*60 }
    else st
  if now - st1.last_call_time < st1.min_interval then (false, st1)
  else if st1.call_count ≥ st1.daily_limit then (false, st1)
  else (true, st1)

/-- `APIRateLimiter.record_call` from the source. -/
def record_call (now : Int) (st : APIRateLimiter) : APIRateLimiter :=
  { st with call_count := st.call_count + 1, last_call_time := now }

/-- Build the indexed snapshot from the raw `states` list, as the loop
in `fetch_opensky_data` does: skip entries that are empty or whose
index 0 is `None`/empty, key by the lowercased ICAO hex, and let a
later duplicate overwrite an earlier one (Python dict assignment). -/
def indexStates (states : List OpenSkyEntry) : Snapshot :=
  states.foldl
    (fun d e =>
      match e.head? with
      | some (some hex0) => if hex0 = "" then d else dictInsert (pyLower hex0) e d
      | _ => d)
    []

/-- `fetch_opensky_data` from the source.  `payload` models the decoded
HTTP response: `none` when the fetch failed or the JSON object has no
`states` key (in both cases `data.get("states", [])` is an absent
list), `some states` when the key is present. -/
def fetch_opensky_data (rl : APIRateLimiter) (now : Int)
    (payload : Option (List OpenSkyEntry)) : Option Snapshot × APIRateLimiter :=
  match can_make_call now rl with
  | (false, rl') => (none, rl')
  | (true, rl') =>
      match payload with
      | none => (none, rl')
      | some states =>
          if states.isEmpty then (none, record_call now rl')
          else (some (indexStates states), record_call now rl')

/-- `fetch_piaware_data` from the source: a failed fetch yields the
empty dict, whose `aircraft` field defaults to the empty list. -/
def fetch_piaware_data (resp : Option (List Aircraft)) : List Aircraft :=
  match resp with
  | none => []
  | some l => l

/-- The mutable state of `main`'s polling loop. -/
structure MainState where
  opensky_data : Snapshot
  last_opensky_refresh : Int
  rate_limiter : APIRateLimiter
  reported_aircraft : List (String × String)
deriving DecidableEq

/-- The registry-refresh step at the top of each `main` cycle
(lines 276-280): if the cache duration elapsed, attempt
`fetch_opensky_data` and adopt the result only when it is truthy
(a non-`None`, non-empty dict). -/
def refreshStep (now : Int) (payload : Option (List OpenSkyEntry))
    (st : MainState) : MainState :=
  if now - st.last_opensky_refresh > OPENSKY_CACHE_DURATION then
    match fetch_opensky_data st.rate_limiter now payload with
    | (newData, rl') =>
        match newData with
        | some d =>
            if d.isEmpty then { st with rate_limiter := rl' }
            else
              { st with opensky_data := d, last_opensky_refresh := now,
                        rate_limiter := rl' }
        | none => { st with rate_limiter := rl' }
  else st

/-- The dedup key `f"{icao_hex}-{category}"` built in `main`. -/
def dkey (icao_hex category : String) : String := icao_hex ++ "-" ++ category

/-- The per-aircraft body of `main`'s classification loop, folded over
the verdicts of the cycle: it threads `current_aircraft_ids`, the list
of newly announced `(icao_hex, category)` pairs, and the
`reported_aircraft` dict. -/
def cycleLoop : List (String × String) → List String → List (String × String) →
    List (String × String) → List String × List (String × String) × List (String × String)
  | [], ids, ann, rep => (ids, ann, rep)
  | (i, c) :: rest, ids, ann, rep =>
      let k := dkey i c
      match dictLookup k rep with
      | some v =>
          if v = c then cycleLoop rest (k :: ids) ann rep
          else cycleLoop rest (k :: ids) (ann ++ [(i, c)]) (dictInsert k c rep)
      | none => cycleLoop rest (k :: ids) (ann ++ [(i, c)]) (dictInsert k c rep)

/-- One dedup cycle of `main` (lines 286-303) over the cycle's verdict
set: run the classification loop body for every verdict, then prune
`reported_aircraft` to the keys seen this cycle.  Returns the newly
announced `(icao_hex, category)` pairs and the post-prune dedup state. -/
def processCycle (verdicts : List (String × String))
    (reported : List (String × String)) :
    List (String × String) × List (String × String) :=
  let r := cycleLoop verdicts [] [] reported
  (r.2.1, r.2.2.filter (fun kv => decide (kv.1 ∈ r.1)))

/-- The verdict set of one cycle: `check_aircraft_status` applied to
every fetched aircraft (with the current snapshot dict), keeping the
`(icao_hex, category)` of every non-`None` result. -/
def cycleVerdicts (aircraft_list : List Aircraft) (snapshot : Snapshot) :
    List (String × String) :=
  aircraft_list.filterMap
    (fun a => (check_aircraft_status a (some snapshot)).map (fun r => (r.1, r.2.2)))

/-- One full cycle of `main`'s polling loop: registry refresh, live-feed
fetch, classification, dedup and pruning.  Returns the newly announced
pairs and the updated loop state. -/
def mainCycle (now : Int) (oskyPayload : Option (List OpenSkyEntry))
    (feedResp : Option (List Aircraft)) (st : MainState) :
    List (String × String) × MainState :=
  let st1 := refreshStep now oskyPayload st
  let aircraft_list := fetch_piaware_data feedResp
  let vs := cycleVerdicts aircraft_list st1.opensky_data
  let r := processCycle vs st1.reported_aircraft
  (r.1, { st1 with reported_aircraft := r.2 })

/-- Refinement target for the foreign branch, written from the spec's
words: the verdict is FOREIGN exactly when a snapshot is available,
contains the lowercased identifier, and that entry's nationality field
is present (index 2 holds a string), non-empty, and its
whitespace-stripped value (the form the program compares and reports)
is neither "Unknown" nor the home-country string "United States". -/
def classifySpecForeign (opensky_data : Option Snapshot) (icao_hex : String) :
    Option (String × String × String) :=
  match opensky_data with
  | none => none
  | some d =>
      match dictLookup icao_hex d with
      | none => none
      | some entry =>
          match entry.get? 2 with
          | some (some raw) =>
              if raw ≠ "" ∧ pyStrip raw ≠ "Unknown" ∧ pyStrip raw ≠ "United States"
              then some (icao_hex, "Foreign (" ++ pyStrip raw ++ ")", "FOREIGN")
              else none
          | _ => none

/-- The category of the last verdict in the list whose dedup key is `k`
(`none` when no verdict has that key).  This is the value the Python
dict holds under `k` after the cycle's loop, by last-write-wins. -/
def lastCat (k : String) : List (String × String) → Option String
  | [] => none
  | (i, c) :: rest =>
      match lastCat k rest with
      | some v => some v
      | none => if dkey i c = k then some c else none

/-- The newly-announced pairs of one cycle, computed directly by
recursion on the verdict list while threading the evolving
`reported_aircraft` dict. -/
def annList : List (String × String) → List (String × String) → List (String × String)
  | [], _ => []
  | (i, c) :: rest, rep =>
      let k := dkey i c
      match dictLookup k rep with
      | some v =>
          if v = c then annList rest rep
          else (i, c) :: annList rest (dictInsert k c rep)
      | none => (i, c) :: annList rest (dictInsert k c rep)

/-- Every verdict category produced by `check_aircraft_status` is
MILITARY or FOREIGN; verdict lists fed to the dedup cycle satisfy this. -/
def catOK (vs : List (String × String)) : Prop :=
  ∀ p ∈ vs, p.2 = "MILITARY" ∨ p.2 = "FOREIGN"

/-- Looking up the dedup key of a well-categorised pair never yields a
different category. -/
def GoodRep (rep : List (String × String)) : Prop :=
  ∀ i c v, (c = "MILITARY" ∨ c = "FOREIGN") →
    dictLookup (dkey i c) rep = some v → v = c

/-- Structural invariant of the dedup dict: every stored value is a
category (MILITARY or FOREIGN) and its key is some identifier joined
with exactly that category. -/
def DedupInv (rep : List (String × String)) : Prop :=
  ∀ kv ∈ rep, (kv.2 = "MILITARY" ∨ kv.2 = "FOREIGN") ∧ ∃ i, kv.1 = dkey i kv.2

/-- The dedup states reachable by `main`: the loop starts from the
empty dict and each cycle replaces the state by `processCycle`'s
post-prune state, fed with verdicts whose categories come from
`check_aircraft_status`. -/
inductive Reachable : List (String × String) → Prop
  | init : Reachable []
  | step (st : List (String × String)) (vs : List (String × String)) :
      Reachable st → catOK vs → Reachable (processCycle vs st).2

/-- A sequence of `record_call`s at the given times. -/
def iterRecord (times : List Int) (st : APIRateLimiter) : APIRateLimiter :=
  times.foldl (fun s t => record_call t s) st

theorem pyLower_eq_empty_iff (s : String) : pyLower s = "" ↔ s = "" := by
  cases s with
  | mk l =>
      constructor
      · intro h
        have hd : l.map Char.toLower = [] := congrArg String.data h
        have : l = [] := List.map_eq_nil_iff.mp hd
        simp [this]
      · intro h
        simp only [h]
        rfl

theorem dkey_data (i c : String) : (dkey i c).data = i.data ++ '-' :: c.data := by
  cases i with
  | mk li =>
      cases c with
      | mk lc =>
          show (li ++ ['-']) ++ lc = li ++ '-' :: lc
          simp

theorem dkey_inj_left {i i' c : String} (h : dkey i c = dkey i' c) : i = i' := by
  have hd := congrArg String.data h
  rw [dkey_data, dkey_data] at hd
  have hl : i.data = i'.data := List.append_cancel_right hd
  cases i; cases i'; exact congrArg String.mk hl

theorem dkey_mil_ne_foreign (i i' : String) :
    dkey i "MILITARY" ≠ dkey i' "FOREIGN" := by
  intro h
  have hd := congrArg String.data h
  rw [dkey_data, dkey_data] at hd
  have hM : "MILITARY".data = ['M','I','L','I','T','A','R','Y'] := rfl
  have hF : "FOREIGN".data = ['F','O','R','E','I','G','N'] := rfl
  rw [hM, hF] at hd
  have h2 := congrArg (fun l => l.reverse.head?) hd
  simp at h2

theorem dkey_cat_eq {i i' c c' : String}
    (hc : c = "MILITARY" ∨ c = "FOREIGN") (hc' : c' = "MILITARY" ∨ c' = "FOREIGN")
    (h : dkey i c = dkey i' c') : c = c' := by
  rcases hc with rfl | rfl <;> rcases hc' with rfl | rfl
  · rfl
  · exact absurd h (dkey_mil_ne_foreign i i')
  · exact absurd h.symm (dkey_mil_ne_foreign i' i)
  · rfl

theorem dkey_pair_eq {i i' c c' : String}
    (hc : c = "MILITARY" ∨ c = "FOREIGN") (hc' : c' = "MILITARY" ∨ c' = "FOREIGN")
    (h : dkey i c = dkey i' c') : i = i' ∧ c = c' := by
  have hcc := dkey_cat_eq hc hc' h
  subst hcc
  exact ⟨dkey_inj_left h, rfl⟩

theorem dictLookup_insert {α : Type} (k k' : String) (v : α)
    (d : List (String × α)) :
    dictLookup k' (dictInsert k v d) =
      if k = k' then some v else dictLookup k' d := by
  induction d with
  | nil => simp [dictInsert, dictLookup]
  | cons kv rest ih =>
      obtain ⟨k₀, v₀⟩ := kv
      by_cases h₀ : k₀ = k
      · subst h₀
        by_cases hk : k₀ = k' <;> simp [dictInsert, dictLookup, hk]
      · by_cases hk : k₀ = k'
        · subst hk
          have hne : k ≠ k₀ := fun he => h₀ he.symm
          simp [dictInsert, dictLookup, h₀, hne]
        · simp [dictInsert, dictLookup, h₀, hk, ih]

theorem dictLookup_mem {α : Type} {k : String} {v : α} {d : List (String × α)}
    (h : dictLookup k d = some v) : (k, v) ∈ d := by
  induction d with
  | nil => simp [dictLookup] at h
  | cons kv rest ih =>
      obtain ⟨k₀, v₀⟩ := kv
      by_cases hk : k₀ = k
      · subst hk
        simp [dictLookup] at h
        simp [h]
      · simp [dictLookup, hk] at h
        exact List.mem_cons_of_mem _ (ih h)

theorem mem_dictInsert {α : Type} {kv : String × α} {k : String} {v : α}
    {d : List (String × α)} (h : kv ∈ dictInsert k v d) :
    kv = (k, v) ∨ kv ∈ d := by
  induction d with
  | nil => simpa [dictInsert] using h
  | cons kv₀ rest ih =>
      obtain ⟨k₀, v₀⟩ := kv₀
      by_cases hk : k₀ = k
      · subst hk
        simp [dictInsert] at h
        rcases h with h | h
        · exact Or.inl (by simp [h])
        · exact Or.inr (List.mem_cons_of_mem _ h)
      · simp [dictInsert, hk] at h
        rcases h with h | h
        · exact Or.inr (by simp [h])
        · rcases ih h with h' | h'
          · exact Or.inl h'
          · exact Or.inr (List.mem_cons_of_mem _ h')

theorem dictLookup_filter_key {α : Type} (k : String) (ids : List String)
    (d : List (String × α)) :
    dictLookup k (d.filter (fun kv => decide (kv.1 ∈ ids))) =
      if k ∈ ids then dictLookup k d else none := by
  induction d with
  | nil => simp [dictLookup]
  | cons kv rest ih =>
      obtain ⟨k₀, v₀⟩ := kv
      by_cases hmem : k₀ ∈ ids
      · by_cases hk : k₀ = k
        · subst hk
          simp [List.filter, hmem, dictLookup]
        · simp [List.filter, hmem, dictLookup, hk, ih]
      · by_cases hk : k₀ = k
        · subst hk
          simp [List.filter, hmem, dictLookup, ih]
        · simp [List.filter, hmem, dictLookup, hk, ih]

theorem lastCat_isSome_iff (k : String) (vs : List (String × String)) :
    (lastCat k vs).isSome = true ↔ ∃ p ∈ vs, dkey p.1 p.2 = k := by
  induction vs with
  | nil => simp [lastCat]
  | cons p rest ih =>
      obtain ⟨i, c⟩ := p
      cases h : lastCat k rest with
      | some v =>
          have hrest : ∃ p ∈ rest, dkey p.1 p.2 = k := ih.mp (by rw [h]; rfl)
          rcases hrest with ⟨p, hp, hk⟩
          simp only [lastCat, h, Option.isSome_some, true_iff]
          exact ⟨p, List.mem_cons_of_mem _ hp, hk⟩
      | none =>
          have hrest : ¬∃ p ∈ rest, dkey p.1 p.2 = k := by
            intro hex
            have hs := ih.mpr hex
            rw [h] at hs
            cases hs
          by_cases hk : dkey i c = k
          · simp only [lastCat, h, if_pos hk, Option.isSome_some, true_iff]
            exact ⟨(i, c), List.mem_cons_self _ _, hk⟩
          · simp only [lastCat, h, if_neg hk]
            apply iff_of_false (by simp)
            intro hex
            rcases hex with ⟨p, hp, hkp⟩
            rcases List.mem_cons.mp hp with rfl | hp'
            · exact hk hkp
            · exact hrest ⟨p, hp', hkp⟩

theorem lastCat_mem {k : String} {vs : List (String × String)} {v : String}
    (h : lastCat k vs = some v) : ∃ i, (i, v) ∈ vs ∧ dkey i v = k := by
  induction vs with
  | nil => simp [lastCat] at h
  | cons p rest ih =>
      obtain ⟨i, c⟩ := p
      cases hr : lastCat k rest with
      | some w =>
          simp only [lastCat, hr] at h
          cases h
          rcases ih hr with ⟨i', hmem, hkey⟩
          exact ⟨i', List.mem_cons_of_mem _ hmem, hkey⟩
      | none =>
          simp only [lastCat, hr] at h
          by_cases hk : dkey i c = k
          · rw [if_pos hk] at h
            cases h
            exact ⟨i, List.mem_cons_self _ _, hk⟩
          · rw [if_neg hk] at h
            cases h

theorem lastCat_self {vs : List (String × String)} (hcat : catOK vs)
    {i c : String} (hmem : (i, c) ∈ vs) : lastCat (dkey i c) vs = some c := by
  cases h : lastCat (dkey i c) vs with
  | none =>
      exfalso
      have hsome : (lastCat (dkey i c) vs).isSome = true :=
        (lastCat_isSome_iff _ _).mpr ⟨(i, c), hmem, rfl⟩
      rw [h] at hsome
      cases hsome
  | some v =>
      rcases lastCat_mem h with ⟨i', hmem', hkey⟩
      have hv : v = c :=
        dkey_cat_eq (hcat (i', v) hmem') (hcat (i, c) hmem) hkey
      rw [hv]

theorem cycleLoop_ids_mem (vs : List (String × String)) (ids : List String)
    (ann rep : List (String × String)) (k : String) :
    k ∈ (cycleLoop vs ids ann rep).1 ↔
      k ∈ ids ∨ ∃ p ∈ vs, dkey p.1 p.2 = k := by
  induction vs generalizing ids ann rep with
  | nil => simp [cycleLoop]
  | cons p rest ih =>
      obtain ⟨i, c⟩ := p
      have hgoal : ∀ ann' rep',
          (k ∈ (cycleLoop rest (dkey i c :: ids) ann' rep').1 ↔
            k ∈ ids ∨ ∃ p ∈ (i, c) :: rest, dkey p.1 p.2 = k) := by
        intro ann' rep'
        rw [ih]
        simp [List.mem_cons]
        tauto
      cases h : dictLookup (dkey i c) rep with
      | some v =>
          by_cases hv : v = c <;> simp only [cycleLoop, h, hv, if_pos, if_neg] <;>
            simp [hv] <;> exact (by simpa using hgoal _ _)
      | none =>
          simp only [cycleLoop, h]
          exact hgoal _ _

theorem cycleLoop_lookup (vs : List (String × String)) (ids : List String)
    (ann rep : List (String × String)) (k : String) :
    dictLookup k (cycleLoop vs ids ann rep).2.2 =
      match lastCat k vs with
      | some v => some v
      | none => dictLookup k rep := by
  induction vs generalizing ids ann rep with
  | nil => simp [cycleLoop, lastCat]
  | cons p rest ih =>
      obtain ⟨i, c⟩ := p
      cases h : dictLookup (dkey i c) rep with
      | some v =>
          by_cases hv : v = c
          · simp only [cycleLoop, h]
            rw [if_pos hv, ih]
            cases hr : lastCat k rest with
            | some w => simp [lastCat, hr]
            | none =>
                simp only [lastCat, hr]
                by_cases hk : dkey i c = k
                · rw [if_pos hk, ← hk, h, hv]
                · rw [if_neg hk]
          · simp only [cycleLoop, h]
            rw [if_neg hv, ih]
            cases hr : lastCat k rest with
            | some w => simp [lastCat, hr]
            | none =>
                simp only [lastCat, hr]
                rw [dictLookup_insert]
                by_cases hk : dkey i c = k <;> simp [hk]
      | none =>
          simp only [cycleLoop, h]
          rw [ih]
          cases hr : lastCat k rest with
          | some w => simp [lastCat, hr]
          | none =>
              simp only [lastCat, hr]
              rw [dictLookup_insert]
              by_cases hk : dkey i c = k <;> simp [hk]

theorem cycleLoop_ann (vs : List (String × String)) (ids : List String)
    (ann rep : List (String × String)) :
    (cycleLoop vs ids ann rep).2.1 = ann ++ annList vs rep := by
  induction vs generalizing ids ann rep with
  | nil => simp [cycleLoop, annList]
  | cons p rest ih =>
      obtain ⟨i, c⟩ := p
      cases h : dictLookup (dkey i c) rep with
      | some v =>
          by_cases hv : v = c <;>
            simp only [cycleLoop, annList, h, hv, if_pos, if_neg, ih] <;>
            simp [hv, ih]
      | none => simp [cycleLoop, annList, h, ih]

theorem cycleLoop_rep_mem {vs : List (String × String)} {ids : List String}
    {ann rep : List (String × String)} {kv : String × String}
    (h : kv ∈ (cycleLoop vs ids ann rep).2.2) :
    kv ∈ rep ∨ ∃ p ∈ vs, kv = (dkey p.1 p.2, p.2) := by
  induction vs generalizing ids ann rep with
  | nil => exact Or.inl h
  | cons p rest ih =>
      obtain ⟨i, c⟩ := p
      have hstep : ∀ {ann' : List (String × String)},
          kv ∈ (cycleLoop rest (dkey i c :: ids) ann' (dictInsert (dkey i c) c rep)).2.2 →
          kv ∈ rep ∨ ∃ p ∈ (i, c) :: rest, kv = (dkey p.1 p.2, p.2) := by
        intro ann' hm
        rcases ih hm with hin | ⟨p, hp, hkv⟩
        · rcases mem_dictInsert hin with hkv | hin'
          · exact Or.inr ⟨(i, c), List.mem_cons_self _ _, hkv⟩
          · exact Or.inl hin'
        · exact Or.inr ⟨p, List.mem_cons_of_mem _ hp, hkv⟩
      cases hl : dictLookup (dkey i c) rep with
      | some v =>
          by_cases hv : v = c
          · simp only [cycleLoop, hl, if_pos hv] at h
            rcases ih h with hin | ⟨p, hp, hkv⟩
            · exact Or.inl hin
            · exact Or.inr ⟨p, List.mem_cons_of_mem _ hp, hkv⟩
          · simp only [cycleLoop, hl, if_neg hv] at h
            exact hstep h
      | none =>
          simp only [cycleLoop, hl] at h
          exact hstep h

theorem processCycle_ann (vs rep : List (String × String)) :
    (processCycle vs rep).1 = annList vs rep := by
  simp [processCycle, cycleLoop_ann]

theorem processCycle_lookup (vs rep : List (String × String)) (k : String) :
    dictLookup k (processCycle vs rep).2 = lastCat k vs := by
  simp only [processCycle]
  rw [dictLookup_filter_key]
  by_cases hk : k ∈ (cycleLoop vs [] [] rep).1
  · rw [if_pos hk, cycleLoop_lookup]
    rcases (cycleLoop_ids_mem vs [] [] rep k).mp hk with hin | hex
    · exact absurd hin (List.not_mem_nil k)
    · have hsome := (lastCat_isSome_iff k vs).mpr hex
      cases hl : lastCat k vs with
      | none => rw [hl] at hsome; cases hsome
      | some v => rfl
  · rw [if_neg hk]
    cases hl : lastCat k vs with
    | none => rfl
    | some v =>
        exfalso
        have hsome : (lastCat k vs).isSome = true := by rw [hl]; rfl
        exact hk ((cycleLoop_ids_mem vs [] [] rep k).mpr
          (Or.inr ((lastCat_isSome_iff k vs).mp hsome)))

theorem processCycle_state_mem {vs rep : List (String × String)}
    {kv : String × String} (h : kv ∈ (processCycle vs rep).2) :
    kv ∈ rep ∨ ∃ p ∈ vs, kv = (dkey p.1 p.2, p.2) := by
  simp only [processCycle] at h
  exact cycleLoop_rep_mem (List.mem_of_mem_filter h)

theorem annList_subset {vs rep : List (String × String)} {p : String × String}
    (h : p ∈ annList vs rep) : p ∈ vs := by
  induction vs generalizing rep with
  | nil => simp [annList] at h
  | cons q rest ih =>
      obtain ⟨i, c⟩ := q
      cases hl : dictLookup (dkey i c) rep with
      | some v =>
          by_cases hv : v = c
          · simp only [annList, hl] at h
            rw [if_pos hv] at h
            exact List.mem_cons_of_mem _ (ih h)
          · simp only [annList, hl] at h
            rw [if_neg hv] at h
            rcases List.mem_cons.mp h with rfl | h'
            · exact List.mem_cons_self _ _
            · exact List.mem_cons_of_mem _ (ih h')
      | none =>
          simp only [annList, hl] at h
          rcases List.mem_cons.mp h with rfl | h'
          · exact List.mem_cons_self _ _
          · exact List.mem_cons_of_mem _ (ih h')

theorem annList_mem {vs rep : List (String × String)} {i c : String}
    (hmem : (i, c) ∈ vs)
    (hrep : ∀ v, dictLookup (dkey i c) rep = some v → v ≠ c) :
    (i, c) ∈ annList vs rep := by
  induction vs generalizing rep with
  | nil => cases hmem
  | cons q rest ih =>
      obtain ⟨i', c'⟩ := q
      by_cases hq : (i', c') = (i, c)
      · obtain ⟨rfl, rfl⟩ := Prod.mk.injEq .. ▸ hq
        cases hl : dictLookup (dkey i' c') rep with
        | some v =>
            have hv : v ≠ c' := hrep v hl
            simp only [annList, hl]
            rw [if_neg hv]
            exact List.mem_cons_self _ _
        | none =>
            simp only [annList, hl]
            exact List.mem_cons_self _ _
      · have hmem' : (i, c) ∈ rest := by
          rcases List.mem_cons.mp hmem with he | h'
          · exact absurd he.symm hq
          · exact h'
        have hins : ∀ v, dictLookup (dkey i c) (dictInsert (dkey i' c') c' rep) = some v →
            v ≠ c := by
          intro v hv
          rw [dictLookup_insert] at hv
          by_cases hkk : dkey i' c' = dkey i c
          · rw [if_pos hkk] at hv
            cases hv
            intro hvc
            apply hq
            have hii : i' = i := dkey_inj_left (hvc ▸ hkk)
            rw [hii, hvc]
          · rw [if_neg hkk] at hv
            exact hrep v hv
        cases hl : dictLookup (dkey i' c') rep with
        | some v =>
            by_cases hv : v = c'
            · simp only [annList, hl]
              rw [if_pos hv]
              exact ih hmem' hrep
            · simp only [annList, hl]
              rw [if_neg hv]
              exact List.mem_cons_of_mem _ (ih hmem' hins)
        | none =>
            simp only [annList, hl]
            exact List.mem_cons_of_mem _ (ih hmem' hins)

theorem annList_nil {vs rep : List (String × String)}
    (hall : ∀ p ∈ vs, dictLookup (dkey p.1 p.2) rep = some p.2) :
    annList vs rep = [] := by
  induction vs with
  | nil => rfl
  | cons q rest ih =>
      obtain ⟨i, c⟩ := q
      have hl : dictLookup (dkey i c) rep = some c :=
        hall (i, c) (List.mem_cons_self _ _)
      simp only [annList, hl]
      rw [if_pos trivial]
      exact ih (fun p hp => hall p (List.mem_cons_of_mem _ hp))

theorem goodRep_insert {rep : List (String × String)} {i' c' : String}
    (hgood : GoodRep rep) (hc' : c' = "MILITARY" ∨ c' = "FOREIGN") :
    GoodRep (dictInsert (dkey i' c') c' rep) := by
  intro i c v hc hv
  rw [dictLookup_insert] at hv
  by_cases hkk : dkey i' c' = dkey i c
  · rw [if_pos hkk] at hv
    cases hv
    exact (dkey_cat_eq hc' hc hkk)
  · rw [if_neg hkk] at hv
    exact hgood i c v hc hv

theorem annList_lookup_none {vs rep : List (String × String)} {i c : String}
    (hgood : GoodRep rep) (hcat : catOK vs) (h : (i, c) ∈ annList vs rep) :
    dictLookup (dkey i c) rep = none := by
  induction vs generalizing rep with
  | nil => simp [annList] at h
  | cons q rest ih =>
      obtain ⟨i', c'⟩ := q
      have hc' : c' = "MILITARY" ∨ c' = "FOREIGN" :=
        hcat (i', c') (List.mem_cons_self _ _)
      have hcat' : catOK rest := fun p hp => hcat p (List.mem_cons_of_mem _ hp)
      cases hl : dictLookup (dkey i' c') rep with
      | some v =>
          have hv : v = c' := hgood i' c' v hc' hl
          simp only [annList, hl] at h
          rw [if_pos hv] at h
          exact ih hgood hcat' h
      | none =>
          simp only [annList, hl] at h
          rcases List.mem_cons.mp h with he | h'
          · obtain ⟨rfl, rfl⟩ := Prod.mk.injEq .. ▸ he
            exact hl
          · have hnone := ih (goodRep_insert hgood hc') hcat' h'
            rw [dictLookup_insert] at hnone
            by_cases hkk : dkey i' c' = dkey i c
            · rw [if_pos hkk] at hnone
              cases hnone
            · rw [if_neg hkk] at hnone
              exact hnone

theorem dedupInv_goodRep {rep : List (String × String)} (hinv : DedupInv rep) :
    GoodRep rep := by
  intro i c v hc hv
  obtain ⟨hvcat, i', hkey⟩ := hinv _ (dictLookup_mem hv)
  exact (dkey_cat_eq hc hvcat hkey).symm

theorem dedupInv_processCycle {rep vs : List (String × String)}
    (hinv : DedupInv rep) (hcat : catOK vs) : DedupInv (processCycle vs rep).2 := by
  intro kv hkv
  rcases processCycle_state_mem hkv with hold | ⟨p, hp, rfl⟩
  · exact hinv kv hold
  · obtain ⟨i, c⟩ := p
    exact ⟨hcat (i, c) hp, i, rfl⟩

theorem reachable_dedupInv {rep : List (String × String)} (h : Reachable rep) :
    DedupInv rep := by
  induction h with
  | init => intro kv hkv; cases hkv
  | step st vs _ hcat ih => exact dedupInv_processCycle ih hcat

theorem iterRecord_spec (times : List Int) (init : APIRateLimiter) :
    (iterRecord times init).daily_limit = init.daily_limit ∧
    (iterRecord times init).min_interval = init.min_interval ∧
    (iterRecord times init).reset_time = init.reset_time ∧
    (iterRecord times init).call_count = init.call_count + times.length := by
  induction times generalizing init with
  | nil => simp [iterRecord]
  | cons t rest ih =>
      have hstep : iterRecord (t :: rest) init = iterRecord rest (record_call t init) := rfl
      rw [hstep]
      obtain ⟨h1, h2, h3, h4⟩ := ih (record_call t init)
      refine ⟨h1, h2, h3, ?_⟩
      rw [h4]
      simp [record_call]
      omega

/-- Claim C1: for every aircraft record with a non-empty identifier, if
any of the four military-detection rules matches (callsign pattern,
military hex-block prefix, the record's own military flag, or a squawk
in the fixed military/emergency set), `check_aircraft_status` returns
the lowercased identifier with reason "Military Aircraft" and category
MILITARY, for every registry snapshot argument, including an absent
(`none`) or empty one. -/
theorem c1_military_verdict (a : Aircraft) (od : Option Snapshot)
    (hhex : a.hex ≠ "")
    (hmil : milCallsignRule a = true ∨ milHexRule a = true ∨ a.mil = true ∨
            milSquawkRule a = true) :
    check_aircraft_status a od =
      some (pyLower a.hex, "Military Aircraft", "MILITARY") := by
  have hic : ¬(pyLower a.hex = "") := fun h => hhex ((pyLower_eq_empty_iff a.hex).mp h)
  have hm : is_military_aircraft a = true := by
    unfold is_military_aircraft
    rcases hmil with h | h | h | h <;> simp [h]
  unfold check_aircraft_status
  simp [hic, hm]

/-- Witness for C1 (Scenario A of the spec): callsign RCH123 with hex
ae1234 is announced as MILITARY even with no snapshot at all. -/
theorem c1_military_verdict_witness :
    (("ae1234" : String) ≠ "" ∧
      milCallsignRule { flight := "RCH123", hex := "ae1234" } = true) ∧
    check_aircraft_status { flight := "RCH123", hex := "ae1234" } none =
      some (pyLower "ae1234", "Military Aircraft", "MILITARY") :=
  ⟨by decide, c1_military_verdict { flight := "RCH123", hex := "ae1234" } none
    (by decide) (Or.inl (by decide))⟩

/-- Claim C2: for a record with a non-empty identifier and no military
match, `check_aircraft_status` agrees exactly with the spec-side
foreign rule `classifySpecForeign`: it returns FOREIGN with reason
"Foreign (nationality)" precisely when a snapshot is available,
contains the lowercased identifier, and the entry's nationality field
is present and non-empty with whitespace-stripped value that is
neither "Unknown" nor the home-country string; otherwise it returns
`none`. -/
theorem c2_foreign_iff (a : Aircraft) (od : Option Snapshot)
    (hhex : a.hex ≠ "") (hmil : is_military_aircraft a = false) :
    check_aircraft_status a od = classifySpecForeign od (pyLower a.hex) := by
  have hic : ¬(pyLower a.hex = "") := fun h => hhex ((pyLower_eq_empty_iff a.hex).mp h)
  unfold check_aircraft_status classifySpecForeign
  simp only [hic, hmil, if_false, Bool.false_eq_true]
  cases od with
  | none => rfl
  | some d =>
      cases hl : dictLookup (pyLower a.hex) d with
      | none =>
          by_cases hd : d.isEmpty <;> simp [hd, hl]
      | some entry =>
          have hd : d.isEmpty = false := by
            cases d with
            | nil => simp [dictLookup] at hl
            | cons kv rest => rfl
          simp only [hd, hl, if_false, Bool.false_eq_true]
          cases hge : entry.get? 2 with
          | none => simp
          | some oc =>
              cases oc with
              | none => simp
              | some raw =>
                  by_cases hr : raw = ""
                  · simp [hr]
                  · by_cases h1 : pyStrip raw = "Unknown" <;>
                      by_cases h2 : pyStrip raw = "United States" <;>
                        simp [hr, h1, h2]

/-- Witness for C2 (Scenario B of the spec): a non-military record whose
snapshot entry carries nationality France yields the FOREIGN verdict on
both sides of the equation. -/
theorem c2_foreign_iff_witness :
    (("a1b2c3" : String) ≠ "" ∧
      is_military_aircraft { flight := "DAL100", hex := "a1b2c3" } = false) ∧
    check_aircraft_status { flight := "DAL100", hex := "a1b2c3" }
        (some [("a1b2c3", [some "a1b2c3", some "DAL100", some "France"])]) =
      classifySpecForeign
        (some [("a1b2c3", [some "a1b2c3", some "DAL100", some "France"])])
        (pyLower "a1b2c3") :=
  ⟨by decide, c2_foreign_iff { flight := "DAL100", hex := "a1b2c3" } _
    (by decide) (by decide)⟩

/-- Claim C3: `can_make_call` returns true exactly when, after the lazy
daily reset, the minimum interval has elapsed since the last recorded
call and the (possibly reset) call count is below the daily limit; in
particular a limiter that has performed exactly `daily_limit`
`record_call`s inside one reset window refuses while `now` has not
passed the reset deadline, and refuses whenever less than
`min_interval` has elapsed since the last `record_call`. -/
theorem c3_can_make_call_iff (now : Int) (st : APIRateLimiter) :
    ((can_make_call now st).1 = true ↔
      (st.min_interval ≤ now - st.last_call_time ∧
        (if now > st.reset_time then 0 else st.call_count) < st.daily_limit)) ∧
    (∀ init : APIRateLimiter, ∀ times : List Int,
      init.call_count = 0 → times.length = init.daily_limit →
      now ≤ (iterRecord times init).reset_time →
      (can_make_call now (iterRecord times init)).1 = false) ∧
    (∀ t : Int, now - t < st.min_interval →
      (can_make_call now (record_call t st)).1 = false) := by
  refine ⟨?_, ?_, ?_⟩
  · unfold can_make_call
    by_cases hr : now > st.reset_time <;>
      by_cases hm : now - st.last_call_time < st.min_interval <;>
        simp [hr, hm] <;> (try split) <;> simp_all <;> omega
  · intro init times hcnt hlen hnow
    obtain ⟨h1, _, h3, h4⟩ := iterRecord_spec times init
    have hreset : ¬(now > (iterRecord times init).reset_time) := by omega
    have hquota : (iterRecord times init).call_count ≥
        (iterRecord times init).daily_limit := by omega
    unfold can_make_call
    by_cases hm : now - (iterRecord times init).last_call_time <
        (iterRecord times init).min_interval <;> simp [hreset, hm, hquota]
  · intro t ht
    unfold can_make_call
    by_cases hr : now > st.reset_time <;> simp [record_call, hr, ht]

/-- Witness for C3: a limiter with a daily limit of 2, charged twice
inside the window, refuses at time 30; and a call 6 seconds after a
recorded call is refused when the minimum interval is 10. -/
theorem c3_can_make_call_iff_witness :
    ((⟨2, 10, 0, 0, 86400⟩ : APIRateLimiter).call_count = 0 ∧
      ([5, 20] : List Int).length = (⟨2, 10, 0, 0, 86400⟩ : APIRateLimiter).daily_limit ∧
      (30 : Int) ≤ (iterRecord [5, 20] ⟨2, 10, 0, 0, 86400⟩).reset_time ∧
      (6 : Int) - 0 < (⟨400, 10, 0, 0, 86400⟩ : APIRateLimiter).min_interval) ∧
    (can_make_call 30 (iterRecord [5, 20] ⟨2, 10, 0, 0, 86400⟩)).1 = false ∧
    (can_make_call 6 (record_call 0 ⟨400, 10, 0, 0, 86400⟩)).1 = false :=
  ⟨by decide,
   (c3_can_make_call_iff 30 ⟨0, 0, 0, 0, 0⟩).2.1 ⟨2, 10, 0, 0, 86400⟩ [5, 20]
     (by decide) (by decide) (by decide),
   (c3_can_make_call_iff 6 ⟨400, 10, 0, 0, 86400⟩).2.2 0 (by decide)⟩

/-- Claim C4: when `now` has passed the reset deadline, `can_make_call`
zeroes the call count and moves the deadline 24 hours ahead of `now`
before comparing against the quota, so a limiter whose quota was
exhausted in the previous window (any `call_count`) answers true as
soon as the deadline passes, provided the spacing requirement holds
and the limiter has a positive quota. -/
theorem c4_lazy_reset (now : Int) (st : APIRateLimiter)
    (hr : now > st.reset_time) :
    (can_make_call now st).2.call_count = 0 ∧
    (can_make_call now st).2.reset_time = now + 24*60*60 ∧
    (0 < st.daily_limit → st.min_interval ≤ now - st.last_call_time →
      (can_make_call now st).1 = true) := by
  unfold can_make_call
  by_cases hm : now - st.last_call_time < st.min_interval <;>
    simp [hr, hm] <;> (try split) <;> simp_all <;> omega

/-- Witness for C4: a limiter exhausted at 400/400 in the old window
becomes usable at time 90000, one second of margin past its 86400
deadline. -/
theorem c4_lazy_reset_witness :
    ((90000 : Int) > (⟨400, 10, 400, 0, 86400⟩ : APIRateLimiter).reset_time) ∧
    (can_make_call 90000 ⟨400, 10, 400, 0, 86400⟩).2.call_count = 0 ∧
    (can_make_call 90000 ⟨400, 10, 400, 0, 86400⟩).2.reset_time = 90000 + 24*60*60 ∧
    (can_make_call 90000 ⟨400, 10, 400, 0, 86400⟩).1 = true := by
  have h := c4_lazy_reset 90000 ⟨400, 10, 400, 0, 86400⟩ (by decide)
  exact ⟨by decide, h.1, h.2.1, h.2.2 (by decide) (by decide)⟩

theorem processCycle_nil_state (rep : List (String × String)) :
    (processCycle [] rep).2 = [] := by
  simp only [processCycle, cycleLoop]
  induction rep with
  | nil => rfl
  | cons kv rest ih => simpa [List.filter] using ih

theorem refreshStep_reported (now : Int) (payload : Option (List OpenSkyEntry))
    (st : MainState) :
    (refreshStep now payload st).reported_aircraft = st.reported_aircraft := by
  unfold refreshStep
  by_cases hdue : now - st.last_opensky_refresh > OPENSKY_CACHE_DURATION
  · rw [if_pos hdue]
    rcases fetch_opensky_data st.rate_limiter now payload with ⟨nd, rl'⟩
    cases nd with
    | some d => by_cases hd : d.isEmpty <;> simp [hd]
    | none => rfl
  · rw [if_neg hdue]

/-- Claim C5 counterexample: with the cache elapsed and the limiter
willing, a parseable OpenSky payload whose single entry has an empty
identifier is, by the claim's dichotomy, a successful refresh attempt
(it is neither a network error nor a missing/unparseable payload), so
the claim demands that the snapshot be replaced by the freshly indexed
(here empty) snapshot and that the timestamp be set to `now`; the code
instead charges `record_call` once and leaves both snapshot and
timestamp untouched. -/
theorem c5_refresh_counterexample :
    ((1000 : Int) -
        (⟨[("aaa", [some "aaa"])], 0, ⟨400, 10, 0, 0, 86400⟩, []⟩ :
          MainState).last_opensky_refresh > OPENSKY_CACHE_DURATION) ∧
    (can_make_call 1000
        (⟨[("aaa", [some "aaa"])], 0, ⟨400, 10, 0, 0, 86400⟩, []⟩ :
          MainState).rate_limiter).1 = true ∧
    (refreshStep 1000 (some [[some ""]])
        ⟨[("aaa", [some "aaa"])], 0, ⟨400, 10, 0, 0, 86400⟩, []⟩).rate_limiter.call_count = 1 ∧
    (refreshStep 1000 (some [[some ""]])
        ⟨[("aaa", [some "aaa"])], 0, ⟨400, 10, 0, 0, 86400⟩, []⟩).opensky_data ≠
      indexStates [[some ""]] ∧
    (refreshStep 1000 (some [[some ""]])
        ⟨[("aaa", [some "aaa"])], 0, ⟨400, 10, 0, 0, 86400⟩, []⟩).last_opensky_refresh ≠
      1000 := by
  decide

/-- Claim C5 as amended: for a due and limiter-permitted refresh
attempt, (i) a failed fetch (no `states` payload) leaves the snapshot
and timestamp unchanged and does not charge `record_call` (only the
lazy reset inside `can_make_call` is applied); (ii) a successful fetch
whose indexed snapshot is non-empty replaces the snapshot with the
freshly indexed one, sets the timestamp to `now`, and charges
`record_call` exactly once; (iii) a successful fetch whose states list
is empty or indexes to an empty snapshot (all identifiers missing or
empty) charges `record_call` exactly once but leaves the snapshot and
timestamp unchanged. -/
theorem c5_refresh_contract (now : Int) (payload : Option (List OpenSkyEntry))
    (st : MainState)
    (hdue : now - st.last_opensky_refresh > OPENSKY_CACHE_DURATION)
    (hcall : (can_make_call now st.rate_limiter).1 = true) :
    (payload = none → refreshStep now payload st =
      { st with rate_limiter := (can_make_call now st.rate_limiter).2 }) ∧
    (∀ states, payload = some states → (indexStates states).isEmpty = false →
      refreshStep now payload st =
        { st with opensky_data := indexStates states,
                  last_opensky_refresh := now,
                  rate_limiter := record_call now (can_make_call now st.rate_limiter).2 }) ∧
    (∀ states, payload = some states → (indexStates states).isEmpty = true →
      refreshStep now payload st =
        { st with rate_limiter := record_call now (can_make_call now st.rate_limiter).2 }) := by
  have hpair : can_make_call now st.rate_limiter =
      (true, (can_make_call now st.rate_limiter).2) := by
    rw [← hcall]
  refine ⟨?_, ?_, ?_⟩
  · rintro rfl
    unfold refreshStep fetch_opensky_data
    rw [if_pos hdue, hpair]
  · rintro states rfl hne
    have hs : states.isEmpty = false := by
      cases hstates : states with
      | nil => rw [hstates] at hne; simp [indexStates] at hne
      | cons e rest => rfl
    unfold refreshStep fetch_opensky_data
    rw [if_pos hdue, hpair]
    simp [hs, hne]
  · rintro states rfl hemp
    unfold refreshStep fetch_opensky_data
    rw [if_pos hdue, hpair]
    by_cases hs : states.isEmpty <;> simp [hs, hemp]

/-- Witness for C5's amended contract: a due refresh with one valid
entry replaces the snapshot, stamps the time, and charges the call. -/
theorem c5_refresh_contract_witness :
    ((1000 : Int) -
        (⟨[], 0, ⟨400, 10, 0, 0, 86400⟩, []⟩ : MainState).last_opensky_refresh >
          OPENSKY_CACHE_DURATION ∧
      (can_make_call 1000
        (⟨[], 0, ⟨400, 10, 0, 0, 86400⟩, []⟩ : MainState).rate_limiter).1 = true ∧
      (indexStates [[some "AB"]]).isEmpty = false) ∧
    refreshStep 1000 (some [[some "AB"]]) ⟨[], 0, ⟨400, 10, 0, 0, 86400⟩, []⟩ =
      { (⟨[], 0, ⟨400, 10, 0, 0, 86400⟩, []⟩ : MainState) with
          opensky_data := indexStates [[some "AB"]],
          last_opensky_refresh := 1000,
          rate_limiter :=
            record_call 1000
              (can_make_call 1000
                (⟨[], 0, ⟨400, 10, 0, 0, 86400⟩, []⟩ : MainState).rate_limiter).2 } :=
  ⟨by decide,
   (c5_refresh_contract 1000 (some [[some "AB"]]) ⟨[], 0, ⟨400, 10, 0, 0, 86400⟩, []⟩
     (by decide) (by decide)).2.1 [[some "AB"]] rfl (by decide)⟩

/-- Claim C6: deduplication is idempotent: for every dedup state and
every verdict list (with categories MILITARY/FOREIGN, as every verdict
produced by `check_aircraft_status` is), running `processCycle` twice
with the identical verdict list announces nothing on the second run. -/
theorem c6_idempotent (st vs : List (String × String)) (hcat : catOK vs) :
    (processCycle vs (processCycle vs st).2).1 = [] := by
  rw [processCycle_ann]
  apply annList_nil
  intro p hp
  rw [processCycle_lookup]
  exact lastCat_self hcat hp

/-- Witness for C6: announcing ab as MILITARY, then processing the same
verdict again, yields no second announcement. -/
theorem c6_idempotent_witness :
    catOK [("ab", "MILITARY")] ∧
    (processCycle [("ab", "MILITARY")]
      (processCycle [("ab", "MILITARY")] [("x", "y")]).2).1 = [] :=
  ⟨by simp [catOK], c6_idempotent [("x", "y")] [("ab", "MILITARY")] (by simp [catOK])⟩

/-- Claim C7: pruning: after `processCycle`, a key is present in the
dedup state exactly when it is the dedup key of some verdict of the
current cycle — for every prior state; in particular any key absent
from the current verdict set is gone even if it was present before. -/
theorem c7_prune_keys (st vs : List (String × String)) (k : String) :
    (dictLookup k (processCycle vs st).2).isSome = true ↔
      ∃ p ∈ vs, dkey p.1 p.2 = k := by
  rw [processCycle_lookup]
  exact lastCat_isSome_iff k vs

/-- Claim C8: a verdict whose dedup key is absent from the prior state
is announced; consequently an identifier announced as FOREIGN, pruned
after a cycle of absence, and reappearing as FOREIGN is announced
again, and an identifier whose category flips from MILITARY to FOREIGN
between consecutive cycles is announced again under the new category. -/
theorem c8_fresh_key_announced :
    (∀ vs rep : List (String × String), ∀ i c : String,
      (i, c) ∈ vs → dictLookup (dkey i c) rep = none →
      (i, c) ∈ (processCycle vs rep).1) ∧
    (∀ st0 : List (String × String), ∀ i c : String,
      (i, c) ∈ (processCycle [(i, c)]
        (processCycle [] (processCycle [(i, c)] st0).2).2).1) ∧
    (∀ st0 : List (String × String), ∀ i : String,
      (i, "FOREIGN") ∈ (processCycle [(i, "FOREIGN")]
        (processCycle [(i, "MILITARY")] st0).2).1) := by
  refine ⟨?_, ?_, ?_⟩
  · intro vs rep i c hmem hnone
    rw [processCycle_ann]
    apply annList_mem hmem
    intro v hv
    rw [hnone] at hv
    cases hv
  · intro st0 i c
    rw [processCycle_ann]
    apply annList_mem (List.mem_cons_self _ _)
    intro v hv
    rw [processCycle_lookup] at hv
    simp [lastCat] at hv
  · intro st0 i
    rw [processCycle_ann]
    apply annList_mem (List.mem_cons_self _ _)
    intro v hv
    rw [processCycle_lookup] at hv
    simp only [lastCat] at hv
    rw [if_neg (dkey_mil_ne_foreign i i)] at hv
    cases hv

/-- Witness for C8: a fresh key is announced against a non-trivial
prior state. -/
theorem c8_fresh_key_announced_witness :
    (("cd", "FOREIGN") ∈ [("cd", "FOREIGN")] ∧
      dictLookup (dkey "cd" "FOREIGN") [("ab-MILITARY", "MILITARY")] = none) ∧
    ("cd", "FOREIGN") ∈ (processCycle [("cd", "FOREIGN")] [("ab-MILITARY", "MILITARY")]).1 :=
  ⟨⟨by decide, by decide⟩,
   c8_fresh_key_announced.1 [("cd", "FOREIGN")] [("ab-MILITARY", "MILITARY")]
     "cd" "FOREIGN" (by decide) (by decide)⟩

/-- Claim C9: in every reachable dedup state the value stored under a
key built from a category is exactly that category, so for verdict
lists with MILITARY/FOREIGN categories the announce decision is
determined purely by key membership in the prior state (the
stored-category-differs branch never fires), and on the very first
cycle (empty state) every verdict is announced. -/
theorem c9_reachable_value_matches (st : List (String × String))
    (hreach : Reachable st) :
    (∀ i c v : String, (c = "MILITARY" ∨ c = "FOREIGN") →
      dictLookup (dkey i c) st = some v → v = c) ∧
    (∀ vs : List (String × String), catOK vs → ∀ i c : String,
      ((i, c) ∈ (processCycle vs st).1 ↔
        ((i, c) ∈ vs ∧ dictLookup (dkey i c) st = none))) ∧
    (∀ vs : List (String × String), ∀ i c : String,
      ((i, c) ∈ (processCycle vs []).1 ↔ (i, c) ∈ vs)) := by
  have hgood : GoodRep st := dedupInv_goodRep (reachable_dedupInv hreach)
  refine ⟨hgood, ?_, ?_⟩
  · intro vs hcat i c
    rw [processCycle_ann]
    constructor
    · intro hann
      exact ⟨annList_subset hann, annList_lookup_none hgood hcat hann⟩
    · rintro ⟨hmem, hnone⟩
      apply annList_mem hmem
      intro v hv
      rw [hnone] at hv
      cases hv
  · intro vs i c
    rw [processCycle_ann]
    constructor
    · exact annList_subset
    · intro hmem
      apply annList_mem hmem
      intro v hv
      simp [dictLookup] at hv

/-- Witness for C9: from the initial (empty, reachable) state, a
first-cycle verdict is announced. -/
theorem c9_reachable_value_matches_witness :
    Reachable ([] : List (String × String)) ∧
    ("ab", "MILITARY") ∈ (processCycle [("ab", "MILITARY")] []).1 :=
  ⟨Reachable.init,
   ((c9_reachable_value_matches [] Reachable.init).2.2
     [("ab", "MILITARY")] "ab" "MILITARY").mpr (by decide)⟩

/-- Claim C10: a failed live-feed fetch yields an empty aircraft list
(`fetch_piaware_data` of a failed response is `[]`), the cycle still
runs its pruning step, so the dedup state is emptied wholesale; and
from the emptied state, every verdict of the next (successful) cycle
is announced again. -/
theorem c10_feed_failure_clears_dedup :
    (fetch_piaware_data none = []) ∧
    (∀ now : Int, ∀ payload : Option (List OpenSkyEntry), ∀ st : MainState,
      (mainCycle now payload none st).2.reported_aircraft = []) ∧
    (∀ now : Int, ∀ payload : Option (List OpenSkyEntry),
      ∀ resp : Option (List Aircraft), ∀ st : MainState, ∀ i c : String,
      st.reported_aircraft = [] →
      (i, c) ∈ cycleVerdicts (fetch_piaware_data resp)
        (refreshStep now payload st).opensky_data →
      (i, c) ∈ (mainCycle now payload resp st).1) := by
  refine ⟨rfl, ?_, ?_⟩
  · intro now payload st
    show (processCycle (cycleVerdicts [] _) _).2 = []
    rw [show cycleVerdicts [] (refreshStep now payload st).opensky_data = [] from rfl]
    exact processCycle_nil_state _
  · intro now payload resp st i c hrep hmem
    show (i, c) ∈ (processCycle _ (refreshStep now payload st).reported_aircraft).1
    rw [processCycle_ann, refreshStep_reported, hrep]
    apply annList_mem hmem
    intro v hv
    simp [dictLookup] at hv

/-- Witness for C10: after a cycle with a dead feed emptied the state,
a military aircraft visible on the next successful fetch is announced. -/
theorem c10_feed_failure_clears_dedup_witness :
    ((⟨[], 0, ⟨400, 10, 0, 0, 86400⟩, []⟩ : MainState).reported_aircraft = [] ∧
      ("ab", "MILITARY") ∈ cycleVerdicts
        (fetch_piaware_data (some [{ hex := "ab", mil := true }]))
        (refreshStep 10 none ⟨[], 0, ⟨400, 10, 0, 0, 86400⟩, []⟩).opensky_data) ∧
    ("ab", "MILITARY") ∈
      (mainCycle 10 none (some [{ hex := "ab", mil := true }])
        ⟨[], 0, ⟨400, 10, 0, 0, 86400⟩, []⟩).1 :=
  ⟨⟨rfl, by decide⟩,
   c10_feed_failure_clears_dedup.2.2 10 none (some [{ hex := "ab", mil := true }])
     ⟨[], 0, ⟨400, 10, 0, 0, 86400⟩, []⟩ "ab" "MILITARY" rfl (by decide)⟩

end FlightTrack
